import Mathlib

/-!
Shallow embedding of the image-extraction pipeline of
`petpy/Download 45,000 Adoptable Cat Images with petpy and multiprocessing.ipynb`.

Tables (pandas DataFrames) are lists of rows; a NaN cell is `none`; strings
are `List Char`; an `Option` result on a whole-table step models a raised
Python exception (`none` = the step raised, `some t` = it returned the table
`t`).  The definitions follow the notebook cell by cell.
-/

set_option autoImplicit false

namespace PetpyPipeline

/-- One row of the combined `cats` DataFrame, restricted to the columns kept
by `get_images` (`df.columns.str.contains('id|breed|photo')`): the record
identifier, the primary breed column `breed0`, the optional secondary breed
column `breed1` (`none` = NaN), and the wide photo-URL columns (one entry per
photo column of the frame; `none` = NaN cell).  The `media.photos.photo`
column, which the notebook deletes before any processing, is outside the
model. -/
structure Record where
  id : Nat
  breed0 : List Char
  breed1 : Option (List Char)
  photos : List (Option (List Char))
deriving DecidableEq

/-- One row of `photos_melted`: `pd.melt(photos, id_vars=['id','breed0','breed1'])`
keeps the three id columns and moves each photo cell into `value` (the
`variable` column is deleted immediately afterwards, so it is not modelled). -/
structure MeltedRow where
  id : Nat
  breed0 : List Char
  breed1 : Option (List Char)
  value : Option (List Char)
deriving DecidableEq

/-- One row of `breed_photos` / `cat_breed_images`: columns `id`, `breed`, `img`. -/
structure ImgRow where
  id : Nat
  breed : List Char
  img : List Char
deriving DecidableEq

/-- One row after the `image_width` column has been added. -/
structure WidthRow where
  id : Nat
  breed : List Char
  img : List Char
  image_width : Nat
deriving DecidableEq

/-- Number of photo columns of the melted frame: every row of a DataFrame has
every column, so this is the width of the widest `photos` vector. -/
def numPhotoCols (df : List Record) : Nat :=
  (df.map (fun r => r.photos.length)).foldr max 0

/-- `pd.melt(photos, id_vars=['id','breed0','breed1'])`: one output row per
(photo column, input row) pair, column-major, carrying the cell (possibly
NaN) as `value`. -/
def melt (df : List Record) : List MeltedRow :=
  (List.range (numPhotoCols df)).flatMap (fun j =>
    df.map (fun r => MeltedRow.mk r.id r.breed0 r.breed1 ((r.photos.get? j).join)))

/-- `photos_melted.dropna(subset=['value'], inplace=True)`. -/
def dropnaValue (rows : List MeltedRow) : List MeltedRow :=
  rows.filter (fun r => r.value.isSome)

/-- The melted-and-NaN-dropped frame `photos_melted` of `get_images`. -/
def photos_melted (df : List Record) : List MeltedRow :=
  dropnaValue (melt df)

/-- `breeds1 = photos_melted.loc[:,['id','breed0','value']]` renamed to
`(id, breed, img)`.  Every row of `photos_melted` has a non-NaN `value`
(`dropnaValue` ran first), so `getD []` never supplies its default. -/
def breeds1_of (rows : List MeltedRow) : List ImgRow :=
  rows.map (fun r => ImgRow.mk r.id r.breed0 (r.value.getD []))

/-- `breeds2 = photos_melted.loc[:,['id','breed1','value']]` followed by
`breeds2.dropna()` (which removes exactly the rows with NaN `breed1`, the
other two columns being non-null already) and the rename to `(id, breed, img)`. -/
def breeds2_of (rows : List MeltedRow) : List ImgRow :=
  rows.filterMap (fun r => r.breed1.map (fun b => ImgRow.mk r.id b (r.value.getD [])))

/-- `drop_duplicates(keep='first')` on the key computed by `key`: keep each
row whose key has not appeared earlier in the table, preserving order. -/
def dedupKeepFirst {α β : Type} [DecidableEq β] (key : α → β) : List α → List α
  | [] => []
  | x :: xs => x :: (dedupKeepFirst key xs).filter (fun y => ¬ key y = key x)

/-- `breeds1.append(breeds2).drop_duplicates()` (no subset: the key is the
whole `(id, breed, img)` row).  The `reset_index` / `del ['index']` pair is a
no-op on the modelled columns. -/
def breed_photos_of (rows : List MeltedRow) : List ImgRow :=
  dedupKeepFirst (fun r => r) (breeds1_of rows ++ breeds2_of rows)

/-- The notebook's `get_images` helper: melt, drop NaN photos, split the two
breed columns, append, drop duplicate rows. -/
def get_images (df : List Record) : List ImgRow :=
  breed_photos_of (photos_melted df)

/-- `cat_breed_images = get_images(cats)`. -/
def cat_breed_images (df : List Record) : List ImgRow :=
  get_images df

/-- Digit value of a character, `none` on a non-digit. -/
def digitVal (c : Char) : Option Nat :=
  if '0' ≤ c ∧ c ≤ '9' then some (c.toNat - '0'.toNat) else none

/-- `int(s)` for a nonempty all-digit string; `none` models the `ValueError`
/ conversion failure `astype(int)` raises on anything else (including the NaN
produced when `'width='` does not occur in the URL). -/
def parseNat (s : List Char) : Option Nat :=
  if s.isEmpty then none
  else s.foldl (fun acc c => acc.bind (fun n => (digitVal c).map (fun d => 10 * n + d))) (some 0)

/-- Does `pat` occur at the head of `s`? -/
def startsWith : List Char → List Char → Bool
  | [], _ => true
  | _ :: _, [] => false
  | p :: ps, c :: cs => p = c && startsWith ps cs

/-- `s.split(pat, 1)[1]`: the suffix of `s` after the first occurrence of
`pat`, or `none` (pandas: NaN) when `pat` does not occur. -/
def afterFirst (pat : List Char) : List Char → Option (List Char)
  | [] => none
  | c :: cs =>
    if startsWith pat (c :: cs) then some ((c :: cs).drop pat.length)
    else afterFirst pat cs

/-- `img.str.split('width=', 1).str[1].str.split('&', 0).str[0].astype(int)`
for a single cell: the integer between the first `'width='` and the next
`'&'` (or the end of the string); `none` models the raised conversion error. -/
def widthOf (img : List Char) : Option Nat :=
  match afterFirst ('w' :: 'i' :: 'd' :: 't' :: 'h' :: '=' :: []) img with
  | none => none
  | some rest => parseNat (rest.takeWhile (fun c => ¬ c = '&'))

/-- `cat_breed_images['image_width'] = ....astype(int)`: annotate every row
with its parsed width; the whole step raises (`none`) as soon as any single
URL fails to parse. -/
def addImageWidth : List ImgRow → Option (List WidthRow)
  | [] => some []
  | r :: rs =>
    match widthOf r.img, addImageWidth rs with
    | some w, some ws => some (WidthRow.mk r.id r.breed r.img w :: ws)
    | _, _ => none

/-- Insertion of a key into an ascending list (helper for the sorted group
keys of `groupby`). -/
def insertSorted (n : Nat) : List Nat → List Nat
  | [] => [n]
  | m :: ms => if n ≤ m then n :: m :: ms else m :: insertSorted n ms

/-- Ascending insertion sort on `Nat` (models pandas `groupby`'s sorted group
keys). -/
def sortNat (l : List Nat) : List Nat :=
  l.foldr insertSorted []

/-- `cat_breed_images.groupby('id').apply(lambda x: x[x['image_width'] == 500])`:
group keys in sorted order, each group in original row order, filtered to the
rows of width 500.  The following `del ['id']` / `reset_index` /
`del ['level_1']` cell only rebuilds the `id` column from the group key, a
no-op on the modelled columns. -/
def cat_images_largest_of (rows : List WidthRow) : List WidthRow :=
  (sortNat (dedupKeepFirst (fun n => n) (rows.map (fun r => r.id)))).flatMap
    (fun i => rows.filter (fun r => r.id = i ∧ r.image_width = 500))

/-- `breed.str.replace(' ', '_')` then `breed.str.replace('/', '')` on one
label. -/
def sanitizeBreed (b : List Char) : List Char :=
  (b.map (fun c => if c = ' ' then '_' else c)).filter (fun c => ¬ c = '/')

/-- The two breed-cleaning assignments applied to the whole table. -/
def sanitizeRows (rows : List WidthRow) : List WidthRow :=
  rows.map (fun r => WidthRow.mk r.id (sanitizeBreed r.breed) r.img r.image_width)

/-- `breed_images = cat_images_largest.drop_duplicates(subset=['img','id'])`. -/
def breed_images_of (rows : List WidthRow) : List WidthRow :=
  dedupKeepFirst (fun r => (r.img, r.id)) rows

/-- `groupby('breed').head(n)` as a single left-to-right scan: keep a row iff
fewer than `n` rows of its breed have been kept before it (`seen` lists the
breeds of the rows already kept). -/
def capGo (n : Nat) : List (List Char) → List WidthRow → List WidthRow
  | _, [] => []
  | seen, r :: rs =>
    if seen.countP (fun b => b = r.breed) < n then
      r :: capGo n (r.breed :: seen) rs
    else
      capGo n seen rs

/-- `breed_images.groupby('breed').head(n).reset_index()` (pandas
`GroupBy.head` keeps the original row order; the `reset_index` /
`del ['index']` pair is again a no-op on the modelled columns). -/
def capPerBreed (n : Nat) (rows : List WidthRow) : List WidthRow :=
  capGo n [] rows

/-- `index`, `breed`, `urls` pulled out of `breed_images_5000` column-wise and
re-packed row-wise into `breed_list_new`: the triple `(positional index,
breed, url)` for each row. -/
def breed_list_new_of (rows : List WidthRow) : List (Nat × List Char × List Char) :=
  rows.enum.map (fun p => (p.1, p.2.breed, p.2.img))

/-- The width-annotated `cat_breed_images` table (raises = `none` when some
URL has no parseable width). -/
def widthTable (df : List Record) : Option (List WidthRow) :=
  addImageWidth (get_images df)

/-- `breed_images` as a function of the input record table: width annotation,
width-500 filter via `groupby('id')`, breed sanitization, duplicate
`(img, id)` removal. -/
def breedImages (df : List Record) : Option (List WidthRow) :=
  (widthTable df).map (fun t => breed_images_of (sanitizeRows (cat_images_largest_of t)))

/-- `breed_images_5000` as a function of the input record table. -/
def breedImages5000 (df : List Record) : Option (List WidthRow) :=
  (breedImages df).map (capPerBreed 5000)

/-- `breed_list_new` as a function of the input record table. -/
def breedListNew (df : List Record) : Option (List (Nat × List Char × List Char)) :=
  (breedImages5000 df).map breed_list_new_of

/-- Outcome of `urllib.request.urlretrieve(url, path)` as seen by the
`try`/`except` of `download_breed_images`: success, an
`urllib.error.HTTPError` carrying an HTTP status code, or any other exception
(e.g. a `urllib.error.URLError` from a DNS or connection failure, which has
no HTTP status code). -/
inductive FetchResult where
  | success
  | httpError (code : Nat)
  | otherError (reason : List Char)
deriving DecidableEq

/-- The notebook's `download_breed_images` worker, as a function of the fetch
outcome: the `except urllib.error.HTTPError as err: print(err.code)` clause
turns an `HTTPError` into a normal return (the printed code is the payload);
every other exception is not caught and propagates (`Except.error`).  `Except.ok
none` is a normal return with nothing printed. -/
def download_breed_images (res : FetchResult) : Except (List Char) (Option Nat) :=
  match res with
  | FetchResult.success => Except.ok none
  | FetchResult.httpError c => Except.ok (some c)
  | FetchResult.otherError reason => Except.error reason

/-! ### Concrete fixtures used to exercise the pipeline -/

/-- Characters of a string literal. -/
def chars (s : String) : List Char :=
  s.toList

def urlA50 : List Char :=
  chars "http://photos.petfinder.com/photos/pets/101/1/?bust=15&width=50&-x.jpg"

def urlA500 : List Char :=
  chars "http://photos.petfinder.com/photos/pets/101/1/?bust=15&width=500&-x.jpg"

def urlB500 : List Char :=
  chars "http://photos.petfinder.com/photos/pets/102/1/?bust=15&width=500&-x.jpg"

/-- A record with a secondary breed, a space and a slash in its labels, and
two photo sizes. -/
def recA : Record :=
  Record.mk 101 (chars "Maine Coon") (some (chars "Domestic/Short Hair"))
    [some urlA50, some urlA500]

/-- A record with no secondary breed and one NaN photo cell. -/
def recB : Record :=
  Record.mk 102 (chars "Tabby") none [some urlB500, none]

def dfDemo : List Record :=
  [recA, recB]

def demoOut : List WidthRow :=
  (breedImages dfDemo).getD []

def demoOut5000 : List WidthRow :=
  (breedImages5000 dfDemo).getD []

def demoRow : WidthRow :=
  demoOut.headD (WidthRow.mk 0 [] [] 0)

def demoRow5000 : WidthRow :=
  demoOut5000.headD (WidthRow.mk 0 [] [] 0)

def url5 : List Char :=
  chars "http://photos.petfinder.com/photos/pets/1/1/?bust=15&width=500&-x.jpg"

/-- A record whose two breed labels are identical. -/
def d5 : List Record :=
  [Record.mk 1 (chars "Tabby") (some (chars "Tabby")) [some url5]]

def url5b : List Char :=
  chars "http://photos.petfinder.com/photos/pets/2/1/?bust=15&width=500&-x.jpg"

/-- A record whose two breed labels differ. -/
def d5b : List Record :=
  [Record.mk 2 (chars "Tabby") (some (chars "Calico")) [some url5b]]

def url6_500 : List Char :=
  chars "http://photos.petfinder.com/photos/pets/7/1/?bust=15&width=500&-x.jpg"

/-- A record carrying the same photo at the five widths 50, 60, 95, 300, 500. -/
def d6 : List Record :=
  [Record.mk 7 (chars "Abyssinian") none
    [some (chars "http://photos.petfinder.com/photos/pets/7/1/?bust=15&width=50&-x.jpg"),
     some (chars "http://photos.petfinder.com/photos/pets/7/1/?bust=15&width=60&-x.jpg"),
     some (chars "http://photos.petfinder.com/photos/pets/7/1/?bust=15&width=95&-x.jpg"),
     some (chars "http://photos.petfinder.com/photos/pets/7/1/?bust=15&width=300&-x.jpg"),
     some url6_500]]

def url8 : List Char :=
  chars "http://photos.petfinder.com/photos/pets/3/nophoto.jpg"

/-- A record whose only photo URL carries no `width=` parameter. -/
def d8 : List Record :=
  [Record.mk 3 (chars "Manx") none [some url8]]

def meltRow8 : MeltedRow :=
  (photos_melted d8).headD (MeltedRow.mk 0 [] none none)

def imgRow8 : ImgRow :=
  (get_images d8).headD (ImgRow.mk 0 [] [])

/-! ### Lemmas about `dedupKeepFirst` -/

theorem dedupKeepFirst_sublist {α β : Type} [DecidableEq β] (key : α → β) :
    ∀ l : List α, (dedupKeepFirst key l).Sublist l
  | [] => List.Sublist.refl []
  | x :: xs =>
    List.Sublist.cons₂ x ((List.filter_sublist _).trans (dedupKeepFirst_sublist key xs))

theorem mem_of_mem_dedupKeepFirst {α β : Type} [DecidableEq β] {key : α → β} {l : List α}
    {a : α} (h : a ∈ dedupKeepFirst key l) : a ∈ l :=
  (dedupKeepFirst_sublist key l).subset h

theorem pairwise_key_dedupKeepFirst {α β : Type} [DecidableEq β] (key : α → β) :
    ∀ l : List α, (dedupKeepFirst key l).Pairwise (fun a b => ¬ key a = key b)
  | [] => List.Pairwise.nil
  | x :: xs => by
    refine List.pairwise_cons.2 ⟨?_, List.Pairwise.filter _ (pairwise_key_dedupKeepFirst key xs)⟩
    intro y hy
    have h : ¬ key y = key x := of_decide_eq_true (List.mem_filter.1 hy).2
    exact fun hxy => h hxy.symm

theorem dedupKeepFirst_filter_key {α β : Type} [DecidableEq β] (key : α → β) (k : β) :
    ∀ l : List α,
      (dedupKeepFirst key l).filter (fun y => key y = k)
        = (l.filter (fun y => key y = k)).take 1
  | [] => rfl
  | x :: xs => by
    show (x :: (dedupKeepFirst key xs).filter (fun y => ¬ key y = key x)).filter
          (fun y => key y = k)
        = ((x :: xs).filter (fun y => key y = k)).take 1
    by_cases hx : key x = k
    · rw [List.filter_cons_of_pos (by simpa using hx),
        List.filter_cons_of_pos (by simpa using hx), List.filter_filter, List.take_succ_cons]
      have hnil : (dedupKeepFirst key xs).filter
          (fun a => decide (key a = k) && decide (¬ key a = key x)) = [] := by
        refine List.filter_eq_nil_iff.2 ?_
        intro a _
        by_cases hak : key a = k
        · simp [hak, hx]
        · simp [hak]
      rw [hnil]
      simp
    · rw [List.filter_cons_of_neg (by simpa using hx),
        List.filter_cons_of_neg (by simpa using hx), List.filter_filter]
      have hcongr : (dedupKeepFirst key xs).filter
            (fun a => decide (key a = k) && decide (¬ key a = key x))
          = (dedupKeepFirst key xs).filter (fun y => key y = k) := by
        refine List.filter_congr ?_
        intro a _
        by_cases hak : key a = k
        · have hkx : ¬ k = key x := fun h => hx h.symm
          simp [hak, hkx]
        · simp [hak]
      rw [hcongr, dedupKeepFirst_filter_key key k xs]

/-! ### Lemmas about the per-breed cap -/

theorem capGo_sublist (n : Nat) :
    ∀ (seen : List (List Char)) (l : List WidthRow), (capGo n seen l).Sublist l
  | _, [] => List.Sublist.refl []
  | seen, r :: rs => by
    simp only [capGo]
    by_cases h : seen.countP (fun b => b = r.breed) < n
    · rw [if_pos h]
      exact List.Sublist.cons₂ r (capGo_sublist n _ rs)
    · rw [if_neg h]
      exact List.Sublist.cons r (capGo_sublist n seen rs)

theorem capGo_filter (n : Nat) (b : List Char) :
    ∀ (l : List WidthRow) (seen : List (List Char)),
      (capGo n seen l).filter (fun r => r.breed = b)
        = (l.filter (fun r => r.breed = b)).take (n - seen.countP (fun c => c = b))
  | [], seen => by simp [capGo]
  | r :: rs, seen => by
    simp only [capGo]
    by_cases hcnt : seen.countP (fun c => c = r.breed) < n
    · rw [if_pos hcnt]
      by_cases hb : r.breed = b
      · rw [List.filter_cons_of_pos (by simpa using hb),
          List.filter_cons_of_pos (by simpa using hb),
          capGo_filter n b rs (r.breed :: seen)]
        have hseen : (r.breed :: seen).countP (fun c => c = b)
            = seen.countP (fun c => c = b) + 1 := by
          rw [List.countP_cons]
          simp [hb]
        have hpos : 0 < n - seen.countP (fun c => c = b) := by
          have : seen.countP (fun c => c = b) < n := by
            have heq : seen.countP (fun c => c = b) = seen.countP (fun c => c = r.breed) := by
              rw [hb]
            rw [heq]; exact hcnt
          omega
        obtain ⟨m, hm⟩ := Nat.exists_eq_succ_of_ne_zero (Nat.pos_iff_ne_zero.1 hpos)
        rw [hseen, hm, List.take_succ_cons]
        have : n - (seen.countP (fun c => c = b) + 1) = m := by omega
        rw [this]
      · rw [List.filter_cons_of_neg (by simpa using hb),
          List.filter_cons_of_neg (by simpa using hb),
          capGo_filter n b rs (r.breed :: seen)]
        have hseen : (r.breed :: seen).countP (fun c => c = b)
            = seen.countP (fun c => c = b) := by
          rw [List.countP_cons]
          simp [hb]
        rw [hseen]
    · rw [if_neg hcnt]
      rw [capGo_filter n b rs seen]
      by_cases hb : r.breed = b
      · have hz : n - seen.countP (fun c => c = b) = 0 := by
          have : n ≤ seen.countP (fun c => c = b) := by
            have heq : seen.countP (fun c => c = b) = seen.countP (fun c => c = r.breed) := by
              rw [hb]
            rw [heq]; omega
          omega
        rw [hz]
        simp
      · rw [List.filter_cons_of_neg (by simpa using hb)]

theorem capPerBreed_filter (n : Nat) (b : List Char) (rows : List WidthRow) :
    (capPerBreed n rows).filter (fun r => r.breed = b)
      = (rows.filter (fun r => r.breed = b)).take n := by
  have h := capGo_filter n b rows []
  simpa [capPerBreed] using h

theorem capPerBreed_sublist (n : Nat) (rows : List WidthRow) :
    (capPerBreed n rows).Sublist rows :=
  capGo_sublist n [] rows

/-! ### Lemmas about the individual pipeline stages -/

theorem breedImages_eq {df : List Record} {out : List WidthRow}
    (h : breedImages df = some out) :
    ∃ t, widthTable df = some t
      ∧ out = breed_images_of (sanitizeRows (cat_images_largest_of t)) := by
  obtain ⟨t, ht, hf⟩ := Option.map_eq_some'.1 h
  exact ⟨t, ht, hf.symm⟩

theorem breedImages5000_eq {df : List Record} {out5000 : List WidthRow}
    (h : breedImages5000 df = some out5000) :
    ∃ out, breedImages df = some out ∧ out5000 = capPerBreed 5000 out := by
  obtain ⟨out, hout, hf⟩ := Option.map_eq_some'.1 h
  exact ⟨out, hout, hf.symm⟩

theorem addImageWidth_width :
    ∀ {rows : List ImgRow} {out : List WidthRow}, addImageWidth rows = some out →
      ∀ y ∈ out, widthOf y.img = some y.image_width := by
  intro rows
  induction rows with
  | nil =>
    intro out h y hy
    obtain rfl : ([] : List WidthRow) = out := Option.some.inj h
    simp at hy
  | cons r rs ih =>
    intro out h y hy
    simp only [addImageWidth] at h
    cases hw : widthOf r.img with
    | none => rw [hw] at h; exact absurd h (by simp)
    | some w =>
      rw [hw] at h
      cases hrec : addImageWidth rs with
      | none => rw [hrec] at h; exact absurd h (by simp)
      | some ws =>
        rw [hrec] at h
        obtain rfl := (Option.some.inj h).symm
        rcases List.mem_cons.1 hy with hy | hy
        · subst hy; exact hw
        · exact ih hrec y hy

theorem mem_cat_images_largest {t : List WidthRow} {r : WidthRow}
    (h : r ∈ cat_images_largest_of t) : r ∈ t ∧ r.image_width = 500 := by
  obtain ⟨i, -, hr⟩ := List.mem_flatMap.1 h
  have hm := List.mem_filter.1 hr
  exact ⟨hm.1, (of_decide_eq_true hm.2).2⟩

theorem mem_sanitizeRows {t : List WidthRow} {y : WidthRow} (h : y ∈ sanitizeRows t) :
    ∃ x ∈ t, y = WidthRow.mk x.id (sanitizeBreed x.breed) x.img x.image_width := by
  obtain ⟨x, hx, hxy⟩ := List.mem_map.1 h
  exact ⟨x, hx, hxy.symm⟩

theorem space_not_mem_sanitizeBreed (b : List Char) : ' ' ∉ sanitizeBreed b := by
  intro h
  obtain ⟨a, -, ha⟩ := List.mem_map.1 (List.mem_filter.1 h).1
  by_cases haa : a = ' '
  · rw [if_pos haa] at ha
    exact absurd ha (by decide)
  · rw [if_neg haa] at ha
    exact haa ha

theorem slash_not_mem_sanitizeBreed (b : List Char) : '/' ∉ sanitizeBreed b := by
  intro h
  have := of_decide_eq_true (List.mem_filter.1 h).2
  exact this rfl

theorem breedImages_pairwise {df : List Record} {out : List WidthRow}
    (h : breedImages df = some out) :
    out.Pairwise (fun a b => ¬ (a.id = b.id ∧ a.img = b.img)) := by
  obtain ⟨t, -, rfl⟩ := breedImages_eq h
  refine (pairwise_key_dedupKeepFirst (fun r : WidthRow => (r.img, r.id))
    (sanitizeRows (cat_images_largest_of t))).imp ?_
  intro a b hk hab
  exact hk (by rw [hab.2, hab.1])

theorem countP_le_one_of_pairwise {α : Type} {l : List α} {p : α → Bool}
    (h : l.Pairwise (fun a b => p a = true → p b = true → False)) :
    l.countP p ≤ 1 := by
  induction l with
  | nil => simp
  | cons x xs ih =>
    obtain ⟨hx, hxs⟩ := List.pairwise_cons.1 h
    rw [List.countP_cons]
    by_cases hpx : p x = true
    · have hz : xs.countP p = 0 :=
        List.countP_eq_zero.2 (fun a ha hpa => hx a ha hpx hpa)
      simp [hz, hpx]
    · simp [hpx, ih hxs]

theorem le_fst_of_mem_enumFrom {α : Type} :
    ∀ {l : List α} {n : Nat} {p : Nat × α}, p ∈ List.enumFrom n l → n ≤ p.1
  | [], _, _, h => by simp at h
  | x :: xs, n, p, h => by
    rcases List.mem_cons.1 h with h | h
    · subst h; exact Nat.le_refl n
    · exact Nat.le_of_succ_le (le_fst_of_mem_enumFrom h)

theorem pairwise_fst_lt_enumFrom {α : Type} :
    ∀ (l : List α) (n : Nat), (List.enumFrom n l).Pairwise (fun a b => a.1 < b.1)
  | [], _ => List.Pairwise.nil
  | x :: xs, n => by
    refine List.pairwise_cons.2 ⟨?_, pairwise_fst_lt_enumFrom xs (n + 1)⟩
    intro q hq
    exact Nat.lt_of_succ_le (le_fst_of_mem_enumFrom hq)

theorem pairwise_fst_enum {α : Type} (l : List α) :
    l.enum.Pairwise (fun a b => a.1 < b.1) :=
  pairwise_fst_lt_enumFrom l 0

theorem addImageWidth_none_of_mem :
    ∀ {rows : List ImgRow} {r : ImgRow}, r ∈ rows → widthOf r.img = none →
      addImageWidth rows = none := by
  intro rows
  induction rows with
  | nil => intro r h _; simp at h
  | cons x xs ih =>
    intro r h hw
    simp only [addImageWidth]
    rcases List.mem_cons.1 h with rfl | h
    · rw [hw]
    · rw [ih h hw]
      cases widthOf x.img <;> rfl

theorem photos_length_le {df : List Record} {r : Record} (h : r ∈ df) :
    r.photos.length ≤ numPhotoCols df := by
  induction df with
  | nil => simp at h
  | cons x xs ih =>
    rcases List.mem_cons.1 h with rfl | h
    · exact Nat.le_max_left _ _
    · exact Nat.le_trans (ih h) (Nat.le_max_right _ _)

/-! ### The claims -/

/-- C1: for every input record table with `breed_images` defined (all widths
parse), every row of the final image list has a URL whose embedded `width=`
parameter equals 500, and its `image_width` column equals 500: no row with
any other width survives the filter step. -/
theorem breedImages_width_eq_500 (df : List Record) (out : List WidthRow)
    (h : breedImages df = some out) :
    ∀ r ∈ out, widthOf r.img = some 500 ∧ r.image_width = 500 := by
  obtain ⟨t, ht, rfl⟩ := breedImages_eq h
  intro r hr
  have hpre : r ∈ sanitizeRows (cat_images_largest_of t) := mem_of_mem_dedupKeepFirst hr
  obtain ⟨x, hx, rfl⟩ := mem_sanitizeRows hpre
  obtain ⟨hxt, hw⟩ := mem_cat_images_largest hx
  have hwx := addImageWidth_width ht x hxt
  refine ⟨?_, hw⟩
  show widthOf x.img = some 500
  rw [hwx, hw]

/-- Witness for C1 at the concrete table `dfDemo`. -/
theorem breedImages_width_eq_500_witness :
    widthOf demoRow.img = some 500 ∧ demoRow.image_width = 500 :=
  breedImages_width_eq_500 dfDemo demoOut (by rfl) demoRow (by decide)

/-- C2: the final image list has at most one row per `(id, url)` pair
(pairwise, no two rows agree on both), and the invariant is preserved by the
per-breed cap and by the index-assignment step (which moreover gives every
surviving row a distinct index). -/
theorem breedImages_dedup_invariant (df : List Record) (out out5000 : List WidthRow)
    (h : breedImages df = some out) (h5 : breedImages5000 df = some out5000) :
    out.Pairwise (fun a b => ¬ (a.id = b.id ∧ a.img = b.img))
      ∧ out5000.Pairwise (fun a b => ¬ (a.id = b.id ∧ a.img = b.img))
      ∧ (breed_list_new_of out5000).Pairwise (fun a b => ¬ a.1 = b.1) := by
  have hp := breedImages_pairwise h
  obtain ⟨out', hout', rfl⟩ := breedImages5000_eq h5
  rw [h] at hout'
  obtain rfl := Option.some.inj hout'
  refine ⟨hp, List.Pairwise.sublist (capPerBreed_sublist 5000 out) hp, ?_⟩
  refine List.Pairwise.map _ ?_ (pairwise_fst_enum (capPerBreed 5000 out))
  intro a b hab
  exact Nat.ne_of_lt hab

/-- Witness for C2 at the concrete table `dfDemo`. -/
theorem breedImages_dedup_invariant_witness :
    demoOut.Pairwise (fun a b => ¬ (a.id = b.id ∧ a.img = b.img))
      ∧ demoOut5000.Pairwise (fun a b => ¬ (a.id = b.id ∧ a.img = b.img))
      ∧ (breed_list_new_of demoOut5000).Pairwise (fun a b => ¬ a.1 = b.1) :=
  breedImages_dedup_invariant dfDemo demoOut demoOut5000 (by rfl) (by rfl)

/-- C3: in the final download list, every breed has at most 5000 rows. -/
theorem breedImages5000_breed_cap (df : List Record) (out5000 : List WidthRow)
    (h5 : breedImages5000 df = some out5000) :
    ∀ b : List Char, out5000.countP (fun r => r.breed = b) ≤ 5000 := by
  obtain ⟨out, -, rfl⟩ := breedImages5000_eq h5
  intro b
  rw [List.countP_eq_length_filter, capPerBreed_filter]
  exact List.length_take_le _ _

/-- Witness for C3 at the concrete table `dfDemo`. -/
theorem breedImages5000_breed_cap_witness :
    demoOut5000.countP (fun r => r.breed = chars "Maine_Coon") ≤ 5000 :=
  breedImages5000_breed_cap dfDemo demoOut5000 (by rfl) (chars "Maine_Coon")

/-- C4: every breed label appearing in the final download list contains no
space and no slash character. -/
theorem breedImages5000_breed_sanitized (df : List Record) (out5000 : List WidthRow)
    (h5 : breedImages5000 df = some out5000) :
    ∀ r ∈ out5000, ' ' ∉ r.breed ∧ '/' ∉ r.breed := by
  obtain ⟨out, hout, rfl⟩ := breedImages5000_eq h5
  obtain ⟨t, -, rfl⟩ := breedImages_eq hout
  intro r hr
  have h1 := (capPerBreed_sublist 5000 _).subset hr
  have h2 := mem_of_mem_dedupKeepFirst h1
  obtain ⟨x, -, rfl⟩ := mem_sanitizeRows h2
  exact ⟨space_not_mem_sanitizeBreed _, slash_not_mem_sanitizeBreed _⟩

/-- Witness for C4 at the concrete table `dfDemo`. -/
theorem breedImages5000_breed_sanitized_witness :
    ' ' ∉ demoRow5000.breed ∧ '/' ∉ demoRow5000.breed :=
  breedImages5000_breed_sanitized dfDemo demoOut5000 (by rfl) demoRow5000 (by decide)

/-- C9: the per-breed truncation returns a subsequence of the pre-cap table
(original relative order preserved) and keeps, for each breed, exactly the
first at-most-5000 rows of that breed. -/
theorem cap_keeps_first_rows_in_order (df : List Record) (out out5000 : List WidthRow)
    (h : breedImages df = some out) (h5 : breedImages5000 df = some out5000) :
    out5000.Sublist out
      ∧ ∀ b : List Char, out5000.filter (fun r => r.breed = b)
          = (out.filter (fun r => r.breed = b)).take 5000 := by
  obtain ⟨out', hout', rfl⟩ := breedImages5000_eq h5
  rw [h] at hout'
  obtain rfl := Option.some.inj hout'
  exact ⟨capPerBreed_sublist 5000 out, fun b => capPerBreed_filter 5000 b out⟩

/-- Witness for C9 at the concrete table `dfDemo` and the breed `Tabby`. -/
theorem cap_keeps_first_rows_in_order_witness :
    demoOut5000.Sublist demoOut
      ∧ demoOut5000.filter (fun r => r.breed = chars "Tabby")
          = (demoOut.filter (fun r => r.breed = chars "Tabby")).take 5000 := by
  have h := cap_keeps_first_rows_in_order dfDemo demoOut demoOut5000 (by rfl) (by rfl)
  exact ⟨h.1, h.2 (chars "Tabby")⟩

/-- C6: a record carrying the same photo at widths 50, 60, 95, 300 and 500,
with target width 500, yields exactly one retained photo reference (the
width-500 row) in `breed_images`. -/
theorem five_width_record_one_row :
    breedImages d6 = some [WidthRow.mk 7 (chars "Abyssinian") url6_500 500] := by
  rfl

/-- C5 counterexample: a record with two identical breed labels (`d5`) and a
record with two distinct breed labels (`d5b`) each yield exactly ONE row in
the final image list, not two: the full-row `drop_duplicates` inside
`get_images` collapses the identical pair, and `drop_duplicates(subset=['img','id'])`
collapses the distinct pair. -/
theorem two_breed_record_one_final_row_cex :
    (breedImages d5).map List.length = some 1
      ∧ ¬ (breedImages d5).map List.length = some 2
      ∧ (breedImages d5b).map List.length = some 1 := by
  refine ⟨rfl, ?_, rfl⟩
  intro h
  rw [show (breedImages d5).map List.length = some 1 from rfl] at h
  exact absurd (Option.some.inj h) (by decide)

/-- C5 amended: a record with two non-null breed labels yields two rows (one
per breed label) in the appended pre-dedup table `breeds1.append(breeds2)`,
but the final image list retains at most one row per `(id, url)` pair. -/
theorem two_breed_record_rows (df : List Record) (r : Record) (b1 u : List Char)
    (out : List WidthRow) (hr : r ∈ df) (hb : r.breed1 = some b1)
    (hu : some u ∈ r.photos) (hout : breedImages df = some out) :
    (ImgRow.mk r.id r.breed0 u ∈ breeds1_of (photos_melted df)
      ∧ ImgRow.mk r.id b1 u ∈ breeds2_of (photos_melted df))
    ∧ out.countP (fun x => x.id = r.id ∧ x.img = u) ≤ 1 := by
  obtain ⟨j, hj⟩ := List.mem_iff_get?.1 hu
  obtain ⟨hjl, -⟩ := List.get?_eq_some.1 hj
  have hcols : j < numPhotoCols df := Nat.lt_of_lt_of_le hjl (photos_length_le hr)
  have hmelt : MeltedRow.mk r.id r.breed0 r.breed1 (some u) ∈ photos_melted df := by
    refine List.mem_filter.2 ⟨?_, by simp⟩
    refine List.mem_flatMap.2 ⟨j, List.mem_range.2 hcols, ?_⟩
    refine List.mem_map.2 ⟨r, hr, ?_⟩
    rw [hj]
    rfl
  refine ⟨⟨?_, ?_⟩, ?_⟩
  · exact List.mem_map.2 ⟨_, hmelt, rfl⟩
  · refine List.mem_filterMap.2 ⟨_, hmelt, ?_⟩
    show (MeltedRow.mk r.id r.breed0 r.breed1 (some u)).breed1.map _ = _
    rw [show (MeltedRow.mk r.id r.breed0 r.breed1 (some u)).breed1 = r.breed1 from rfl, hb]
    rfl
  · refine countP_le_one_of_pairwise ((breedImages_pairwise hout).imp ?_)
    intro a b hab ha hb2
    obtain ⟨ha1, ha2⟩ := of_decide_eq_true ha
    obtain ⟨hb1, hb2'⟩ := of_decide_eq_true hb2
    exact hab ⟨ha1.trans hb1.symm, ha2.trans hb2'.symm⟩

/-- Witness for the amended C5 at the concrete record `recA` of `dfDemo`. -/
theorem two_breed_record_rows_witness :
    (ImgRow.mk 101 (chars "Maine Coon") urlA500 ∈ breeds1_of (photos_melted dfDemo)
      ∧ ImgRow.mk 101 (chars "Domestic/Short Hair") urlA500 ∈ breeds2_of (photos_melted dfDemo))
    ∧ demoOut.countP (fun x => x.id = 101 ∧ x.img = urlA500) ≤ 1 :=
  two_breed_record_rows dfDemo recA (chars "Domestic/Short Hair") urlA500 demoOut
    (List.mem_cons_self _ _) rfl (by decide) (by rfl)

/-- C7 counterexample: not every transport-level failure makes the downloader
return normally — an exception other than `HTTPError` (for example a
`URLError` from a DNS or connection failure) is not caught and propagates. -/
theorem download_not_all_failures_caught_cex :
    ¬ ∀ r : FetchResult, r ≠ FetchResult.success →
        ∃ c : Option Nat, download_breed_images r = Except.ok c := by
  intro h
  obtain ⟨c, hc⟩ := h (FetchResult.otherError (chars "urlerror")) (by simp)
  simp [download_breed_images] at hc

/-- C7 amended: on an `HTTPError` the downloader records the error code and
returns normally; on any other fetch exception the error propagates out of
the worker; a successful fetch returns normally with nothing recorded. -/
theorem download_http_error_caught :
    (∀ c : Nat, download_breed_images (FetchResult.httpError c) = Except.ok (some c))
      ∧ (∀ reason : List Char,
          download_breed_images (FetchResult.otherError reason) = Except.error reason)
      ∧ download_breed_images FetchResult.success = Except.ok none :=
  ⟨fun _ => rfl, fun _ => rfl, rfl⟩

/-- C8 counterexample: a record whose photo URL has no `width=` parameter
(`d8`) is not dropped silently — it survives the unpivot step (one row in
`get_images`) and then makes the width-extraction step raise, so the
pipeline produces no final list at all. -/
theorem malformed_url_raises_cex :
    breedImages d8 = none ∧ (get_images d8).length = 1 :=
  ⟨rfl, rfl⟩

/-- C8 amended: missing (NaN) photo fields are dropped silently during the
unpivot step (every retained melted row has a present value), but a retained
URL with no parseable integer `width=` parameter makes the width-extraction
step raise instead of being dropped. -/
theorem missing_dropped_malformed_raises (df : List Record) :
    (∀ m ∈ photos_melted df, m.value.isSome = true)
      ∧ ((∃ r ∈ get_images df, widthOf r.img = none)
          → addImageWidth (get_images df) = none) := by
  constructor
  · intro m hm
    exact (List.mem_filter.1 hm).2
  · intro h
    obtain ⟨r, hr, hw⟩ := h
    exact addImageWidth_none_of_mem hr hw

/-- Witness for the amended C8 at the concrete table `d8`. -/
theorem missing_dropped_malformed_raises_witness :
    meltRow8.value.isSome = true ∧ addImageWidth (get_images d8) = none :=
  ⟨(missing_dropped_malformed_raises d8).1 meltRow8 (by decide),
   (missing_dropped_malformed_raises d8).2 ⟨imgRow8, by decide, by rfl⟩⟩

/-- C10: the `(img, id)` dedup step keeps, for every `(url, id)` key, exactly
the first matching row of the table (in table order); and on a record with
two distinct breed labels the surviving row carries the primary (`breed0`)
label — the secondary label (`Calico` in `d5b`) is dropped, because the
primary-breed rows are appended before the secondary-breed rows. -/
theorem dedup_keeps_first_occurrence :
    (∀ (t : List WidthRow) (k : List Char × Nat),
        (breed_images_of t).filter (fun r => (r.img, r.id) = k)
          = (t.filter (fun r => (r.img, r.id) = k)).take 1)
      ∧ breedImages d5b = some [WidthRow.mk 2 (chars "Tabby") url5b 500] := by
  constructor
  · intro t k
    exact dedupKeepFirst_filter_key (fun r : WidthRow => (r.img, r.id)) k t
  · rfl

end PetpyPipeline
